import Mathlib

/-!
Verification of the agent-go browser agent (agent-go/main.go).

This file shallowly embeds the pure core of the Go program: the Go string
primitives it uses, the listing extractor, the JSON-tolerant action
normalization, the worker-bridge startup, and one iteration of the agent
control loop.  Strings are modelled as Lean strings (lists of Unicode
scalar values); where Go indexes by UTF-8 bytes the embedding notes why
char indexing coincides on the relevant data.  Theorems about the claims
of the specification follow the definitions.
-/

/-! ## Go string primitives -/

/-- Unicode simple lowercase mapping, restricted to the ranges the program
actually processes: ASCII letters and the Cyrillic letters used by the
hard-coded vocabularies (А-Я and Ё).  Models strings.ToLower. -/
def goToLowerChar (c : Char) : Char :=
  if 'A' ≤ c ∧ c ≤ 'Z' then Char.ofNat (c.toNat + 32)
  else if 'А' ≤ c ∧ c ≤ 'Я' then Char.ofNat (c.toNat + 32)
  else if c = 'Ё' then 'ё'
  else c

/-- strings.ToLower on a char list. -/
def lowerL (l : List Char) : List Char := l.map goToLowerChar

/-- strings.ToLower. -/
def toLowerGo (s : String) : String := String.mk (lowerL s.data)

/-- unicode.IsSpace for the code points strings.TrimSpace trims. -/
def goIsSpace (c : Char) : Bool :=
  c = ' ' || c = '\t' || c = '\n' || c = '\u000B' || c = '\u000C' ||
  c = '\r' || c = '\u0085' || c = ' '

/-- strings.TrimSpace on a char list. -/
def trimGo (l : List Char) : List Char :=
  ((l.dropWhile goIsSpace).reverse.dropWhile goIsSpace).reverse

/-- Fixpoint of the loop `for Contains(s, "  ") ReplaceAll(s, "  ", " ")`:
each maximal run of spaces collapses to a single space (the repeated
pairwise replacement halves runs until none of length two remains, so the
loop stops exactly when every run has length one). -/
def squeezeSpaces : List Char → List Char
  | [] => []
  | [c] => [c]
  | c :: d :: rest =>
    if c = ' ' && d = ' ' then squeezeSpaces (d :: rest)
    else c :: squeezeSpaces (d :: rest)

/-- normalizeSpaces from the source: replace NBSP by a space, trim, and
collapse space runs. -/
def normalizeSpacesL (l : List Char) : List Char :=
  squeezeSpaces (trimGo (l.map (fun c => if c = ' ' then ' ' else c)))

/-- normalizeSpaces on strings. -/
def normalizeSpaces (s : String) : String := String.mk (normalizeSpacesL s.data)

/-- Boolean prefix test on char lists. -/
def startsWithL : List Char → List Char → Bool
  | [], _ => true
  | _ :: _, [] => false
  | a :: s, b :: t => a == b && startsWithL s t

/-- strings.Index: position of the first occurrence of `needle` in the
haystack, as a char index.  Go returns a byte index and then slices bytes,
but every pattern searched by the program starts with an ASCII or Cyrillic
lead byte, so a byte-level match always begins at a char boundary and the
char index addresses the same position. -/
def indexOfSubFrom (needle : List Char) : List Char → Option Nat
  | [] => if startsWithL needle [] then some 0 else none
  | c :: t =>
    if startsWithL needle (c :: t) then some 0
    else (indexOfSubFrom needle t).map (· + 1)

/-- strings.Contains on char lists. -/
def isSubL (needle hay : List Char) : Bool := (indexOfSubFrom needle hay).isSome

/-- strings.Contains: `containsSub s sub` tests whether `sub` occurs in `s`. -/
def containsSub (s sub : String) : Bool := isSubL sub.data s.data

/-- strings.Split on a single newline separator. -/
def splitNL : List Char → List (List Char)
  | [] => [[]]
  | c :: rest =>
    if c = '\n' then [] :: splitNL rest
    else match splitNL rest with
      | [] => [[c]]
      | h :: t => (c :: h) :: t

/-- strings.ReplaceAll of CRLF pairs by LF (left to right, non-overlapping). -/
def replaceCRLF : List Char → List Char
  | '\r' :: '\n' :: rest => '\n' :: replaceCRLF rest
  | c :: rest => c :: replaceCRLF rest
  | [] => []

/-- UTF-8 encoding of one scalar value, as byte values. -/
def utf8Bytes (c : Char) : List Nat :=
  let n := c.toNat
  if n < 0x80 then [n]
  else if n < 0x800 then [0xC0 + n / 64, 0x80 + n % 64]
  else if n < 0x10000 then [0xE0 + n / 4096, 0x80 + (n / 64) % 64, 0x80 + n % 64]
  else [0xF0 + n / 262144, 0x80 + (n / 4096) % 64, 0x80 + (n / 64) % 64, 0x80 + n % 64]

/-- UTF-8 bytes of a string; Go strings are exactly these byte sequences. -/
def strBytes (s : String) : List Nat := s.data.flatMap utf8Bytes

/-! ## Listing extractor -/

/-- One extracted record: a title/company pair. -/
structure Listing where
  title : String
  company : String
deriving DecidableEq

/-- Lines that disqualify a candidate company (block of strings not about a
single vacancy), from isLikelyCompany. -/
def companyBadTitle : List String :=
  ["активных вакансий", "сейчас смотрят", "актуальные вакансии",
   "все вакансии", "вакансии компании"]

/-- Negative vocabulary of isLikelyCompany (filters, salaries, cities...),
transcribed exactly, duplicates included. -/
def companyBad : List String :=
  ["руб", "₽", "kzt", "тенге", "₸",
   "сегодня", "вчера", "отклик", "показать", "сортировка",
   "вакансии", "вакансия", "похожие", "результаты", "найдено",
   "удаленно", "удалённо", "remote",
   "опыт", "график", "занятость", "формат работы", "удаленная работа",
   "удалённая работа", "полная занятость", "частичная занятость",
   "выплаты", "зарплата", "з/п", "оклад", "доход", "на руки", "gross",
   "net", "в месяц", "в неделю", "в день", "за смену", "за проект",
   "два раза в месяц", "еженедельно", "ежедневно", "график", "занятость",
   "формат", "удобный график", "полная занятость", "частичная занятость",
   "проектная работа",
   "стажировка", "адрес", "метро", "город", "на карте", "сменный",
   "вахта", "подработка"]

/-- isLikelyCompany from the source. -/
def isLikelyCompanyL (l : List Char) : Bool :=
  let s := normalizeSpacesL l
  if s = [] then false
  else
    let low := lowerL s
    if companyBadTitle.any (fun b => isSubL b.data low) then false
    else if companyBad.any (fun b => isSubL b.data low) then false
    else if s.length > 60 then false
    else true

/-- Lines that disqualify a candidate title, from isLikelyTitle (and
repeated verbatim inside the extraction loop). -/
def titleBadTitle : List String :=
  ["найдено", "вакансий", "по соответствию",
   "сохранить поиск", "вакансии на карте",
   "исключить слова", "уровень дохода", "опыт"]

/-- Role vocabulary a title must contain, from isLikelyTitle. -/
def mustHaveRole : List String :=
  ["engineer", "инженер", "developer", "разработчик", "scientist",
   "аналитик", "data engineer"]

/-- Obvious non-headers rejected by isLikelyTitle. -/
def titleBad : List String :=
  ["войти", "регистрация", "резюме", "отклик", "подписаться",
   "показать", "фильтр", "сортировка"]

/-- isLikelyTitle from the source. -/
def isLikelyTitleL (l : List Char) : Bool :=
  let s := normalizeSpacesL l
  if s = [] then false
  else
    let low := lowerL s
    if titleBadTitle.any (fun b => isSubL b.data low) then false
    else if !(isSubL "engineer".data low || isSubL "инженер".data low) then false
    else if !(mustHaveRole.any (fun b => isSubL b.data low)) then false
    else if titleBad.any (fun b => isSubL b.data low) then false
    else decide (4 ≤ s.length) && decide (s.length ≤ 90)

/-- Case-insensitive composite deduplication key of a title/company pair,
the Go string `ToLower(title) + "|" + ToLower(company)` as a char list. -/
def pairKey (title company : List Char) : List Char :=
  lowerL title ++ '|' :: lowerL company

/-- Deduplication key of a returned record. -/
def listingKey (l : Listing) : List Char := pairKey l.title.data l.company.data

/-- Main scan of ExtractListingsFromVisibleText: for each line, skip junk
headers, test isLikelyTitle, look up to six lines ahead for the first
isLikelyCompany line, deduplicate by pairKey, stop once `want` pairs are
collected (the length test runs after each append, as in the source). -/
def extractLoop (want : Nat) : List (List Char) → List (List Char) → List Listing → List Listing
  | [], _, found => found
  | title :: rest, seen, found =>
    let lowTitle := lowerL title
    if titleBadTitle.any (fun b => isSubL b.data lowTitle) then
      extractLoop want rest seen found
    else if !(isLikelyTitleL title) then
      extractLoop want rest seen found
    else
      match (rest.take 6).find? (fun l => isLikelyCompanyL l) with
      | none => extractLoop want rest seen found
      | some company =>
        let key := pairKey title company
        if key ∈ seen then extractLoop want rest seen found
        else
          let found' := found ++ [⟨String.mk title, String.mk company⟩]
          if found'.length ≥ want then found'
          else extractLoop want rest (key :: seen) found'

/-- ExtractListingsFromVisibleText from the source: normalize line endings,
cut everything before the results marker "найдено" (case-insensitive),
split into lines, drop empty and overlong lines, then run the scan. -/
def ExtractListingsFromVisibleText (visible : String) (want : Nat) : List Listing :=
  let v1 := replaceCRLF visible.data
  let low := lowerL v1
  let v2 := match indexOfSubFrom "найдено".data low with
    | some i => v1.drop i
    | none => v1
  let lines := (splitNL v2).filterMap (fun l =>
    let n := normalizeSpacesL l
    if n = [] then none
    else if n.length > 120 then none
    else some n)
  extractLoop want lines [] []

/-! ## JSON values and the Go decoding the program relies on

JSON documents are modelled as trees: the program never inspects numbers
beyond their kind, so their value is kept as an integer.  Decoded Go maps
(`map[string]interface{}`) are association lists with distinct keys,
built by `canonObj` (later duplicate keys overwrite earlier ones, as in
encoding/json). -/

inductive Json where
  | null
  | bool (b : Bool)
  | num (n : Int)
  | str (s : String)
  | arr (elems : List Json)
  | obj (fields : List (String × Json))

/-- Go map assignment `m[k] = v` on an association list with distinct
keys (every map the program builds has distinct keys): overwrite the
binding if the key is present, append it otherwise. -/
def insertOver : List (String × Json) → String → Json → List (String × Json)
  | [], k, v => [(k, v)]
  | p :: rest, k, v => if p.1 = k then (k, v) :: rest else p :: insertOver rest k v

/-- Go map lookup. -/
def glookup (m : List (String × Json)) (k : String) : Option Json :=
  (m.find? (fun p => p.1 = k)).map (fun p => p.2)

/-- The map produced by decoding a JSON object: every field assigned in
order, so a duplicated key keeps its last value and keys are distinct. -/
def canonObj (fields : List (String × Json)) : List (String × Json) :=
  fields.foldl (fun acc p => insertOver acc p.1 p.2) []

/-- One structured result of the run, struct JobItem. -/
structure JobItem where
  job_title : String
  company_name : String
deriving DecidableEq

/-- json.Unmarshal into a fresh Go string: a JSON string is taken verbatim
and, per encoding/json, the literal null has no effect and no error, which
leaves the zero value "".  Everything else fails. -/
def goUnmarshalString : Json → Option String
  | .str s => some s
  | .null => some ""
  | _ => none

/-- Decode one string-typed struct field: absent or null leaves the zero
value, a string sets it, any other kind is a decode error. -/
def fieldString (m : List (String × Json)) (k : String) : Option String :=
  match glookup m k with
  | none => some ""
  | some (.str s) => some s
  | some .null => some ""
  | some _ => none

/-- json.Unmarshal into a JobItem: an object with optional string fields
job_title and company_name (unknown fields ignored), or null. -/
def unmarshalJobItem : Json → Option JobItem
  | .null => some ⟨"", ""⟩
  | .obj f =>
    let m := canonObj f
    match fieldString m "job_title", fieldString m "company_name" with
    | some t, some c => some ⟨t, c⟩
    | _, _ => none
  | _ => none

/-- json.Unmarshal into a []JobItem slice: an array whose every element
decodes, or null (the nil slice). -/
def unmarshalJobItems : Json → Option (List JobItem)
  | .null => some []
  | .arr l => l.mapM unmarshalJobItem
  | _ => none

/-- Canonical action decoded from the decision service, struct AgentAction.
`arguments = none` is the Go nil map; `summaryRaw` keeps the raw summary
field exactly when it is present (json.RawMessage). -/
structure AgentAction where
  action : String
  tool : String
  arguments : Option (List (String × Json))
  question : String
  summaryRaw : Option Json
  results : List JobItem
  summary : String

/-- Decode the arguments field: absent or null is the nil map, an object
decodes, anything else is a decode error. -/
def fieldArguments (m : List (String × Json)) : Option (Option (List (String × Json))) :=
  match glookup m "arguments" with
  | none => some none
  | some .null => some none
  | some (.obj f) => some (some (canonObj f))
  | some _ => none

/-- Decode the results field, a []JobItem. -/
def fieldResults (m : List (String × Json)) : Option (List JobItem) :=
  match glookup m "results" with
  | none => some []
  | some .null => some []
  | some (.arr l) => l.mapM unmarshalJobItem
  | some _ => none

/-- json.Unmarshal of the decision text into an AgentAction (field names
matched exactly; the model output uses the documented lowercase names).
A JSON null leaves the zero-valued struct, per encoding/json. -/
def decodeAgentAction : Json → Option AgentAction
  | .null => some ⟨"", "", none, "", none, [], ""⟩
  | .obj f =>
    let m := canonObj f
    match fieldString m "action", fieldString m "tool", fieldArguments m,
          fieldString m "question", fieldResults m with
    | some ac, some tl, some ar, some q, some rs =>
      some ⟨ac, tl, ar, q, glookup m "summary", rs, ""⟩
    | _, _, _, _, _ => none
  | _ => none

/-- Recognized tool names, from normalizeAction. -/
def toolNames : List String :=
  ["navigate", "click", "type", "scroll", "wait", "observe", "press_enter"]

/-- Top-level fields that are never folded into the arguments map. -/
def reservedNames : List String :=
  ["action", "tool", "arguments", "args", "question", "summary"]

/-- The decoded "args" alias object of the raw decision, a Go map (empty
when the field is absent or not an object). -/
def argsField (m : List (String × Json)) : List (String × Json) :=
  match glookup m "args" with
  | some (.obj f) => canonObj f
  | _ => []

/-- Merge a decoded map into a base map by plain assignment (the args
alias merge loop). -/
def mergeOver (base l : List (String × Json)) : List (String × Json) :=
  l.foldl (fun acc p => insertOver acc p.1 p.2) base

/-- Merge the remaining top-level fields: skip the reserved names and
never overwrite an entry already present (the root flattening loop). -/
def mergeRoot (base l : List (String × Json)) : List (String × Json) :=
  l.foldl (fun acc p =>
    if reservedNames.contains p.1 then acc
    else if (glookup acc p.1).isSome then acc
    else insertOver acc p.1 p.2) base

/-- normalizeAction from the source.  `m` is the loose map obtained by
re-decoding the same raw text (nil for a null document).  Case 1 turns a
discriminator that is itself a tool name into a tool call; Case 2, taken
only when the discriminator is "tool" and no tool name was decoded,
recovers the tool name from aliased fields and folds argument data from
the "args" alias and the remaining unrecognized top-level fields. -/
def normalizeAction (a : AgentAction) (m : List (String × Json)) : AgentAction :=
  let a1 := if toolNames.contains a.action then
      { a with tool := if a.tool = "" then a.action else a.tool, action := "tool" }
    else a
  if a1.action = "tool" ∧ a1.tool = "" then
    let a2 := match glookup m "tool" with
      | some (.str t) => { a1 with tool := t }
      | _ => a1
    let a3 := if a2.tool = "" then
        match glookup m "action" with
        | some (.str t) => if toolNames.contains t then { a2 with tool := t } else a2
        | _ => a2
      else a2
    let base := a3.arguments.getD []
    let merged := mergeRoot (mergeOver base (argsField m)) m
    { a3 with arguments := some merged }
  else a1

/-- The summary synthesized for an array payload, fmt.Sprintf. -/
def foundMsg (n : Nat) : String := "Found " ++ Nat.repr n ++ " jobs."

/-- finalizeActionFields from the source: an absent summary field returns
immediately; a payload accepted by the string decode (a JSON string, or
null which decodes as a no-op) is the summary verbatim; a payload decoding
as []JobItem synthesizes "Found N jobs." and fills the results only when
none were supplied; anything else falls back to "Done.". -/
def finalizeActionFields (a : AgentAction) : AgentAction :=
  match a.summaryRaw with
  | none => a
  | some j =>
    match goUnmarshalString j with
    | some s => { a with summary := s }
    | none =>
      match unmarshalJobItems j with
      | some arr =>
        { a with results := if a.results = [] then arr else a.results,
                 summary := foundMsg arr.length }
      | none => { a with summary := "Done." }

/-! ## Worker bridge startup

The handshake line read from the spawned process is modelled after its
processing stages: the read may fail, the line may fail to parse as a
status record, or it parses into a status and message (StartPyWorker runs
json.Unmarshal on the line; the text-level parse is abstracted into these
three outcomes).  The model starts after cmd.Start() has succeeded, so
the worker process is running; the bridge state records which commands
have been written to it and whether it was killed. -/

inductive HandshakeLine where
  | readErr
  | parseErr (line : String)
  | resp (status message : String)

/-- State of the spawned worker process as the bridge manipulates it. -/
structure BridgeState where
  sentCmds : List String
  killed : Bool
deriving DecidableEq

/-- StartPyWorker after a successful spawn: read one line; a read failure,
an unparsable line, or a status other than "ok" returns an error.  None of
the failure returns writes a command or kills the process. -/
def startPyWorker : HandshakeLine → Except String Unit × BridgeState
  | .readErr => (.error "read error", ⟨[], false⟩)
  | .parseErr line => (.error ("failed to parse worker hello: " ++ line), ⟨[], false⟩)
  | .resp status message =>
    if status = "ok" then (.ok (), ⟨[], false⟩)
    else (.error ("worker did not start: " ++ message), ⟨[], false⟩)

/-- PyWorker.Stop: send the "exit" command, then kill the process. -/
def stopPyWorker (b : BridgeState) : BridgeState :=
  { sentCmds := b.sentCmds ++ ["exit"], killed := true }

/-! ## Agent control loop, one iteration

The loop in main is modelled as a step function over its mutable state;
the external world (the decision service reply, the wall clock sampled
for a scroll key, the worker response, the operator answer) is the step
input.  Sleeps are recorded in the effects in milliseconds; printing is
abstract except for the data the claims mention. -/

/-- Observation fields the program reads, with the Go string type
assertions already applied: an absent or non-string field and the nil map
both yield "". -/
structure Obs where
  url : String
  title : String
  visibleText : String
deriving DecidableEq

/-- obsSignature from the source: url, title and the first 300 bytes of
the visible text, joined with "|".  Go truncates and compares raw bytes,
so the signature is its UTF-8 byte sequence. -/
def obsSignature (o : Obs) : List Nat :=
  strBytes (o.url ++ "|" ++ o.title ++ "|") ++ (strBytes o.visibleText).take 300

/-- isSearchResultsReady from the source. -/
def isSearchResultsReady (o : Obs) : Bool :=
  let uLow := toLowerGo o.url
  if !(containsSub uLow "/search/vacancy") then false
  else if !(containsSub uLow "text=") then false
  else containsSub uLow "text=ai" || containsSub uLow "text=ai%20engineer" ||
       containsSub uLow "ai%20engineer"

/-- The rate-limit signature test applied to a decision-service error
message. -/
def isRateLimitMsg (msg : String) : Bool :=
  containsSub msg "RESOURCE_EXHAUSTED" || containsSub msg "Quota exceeded" ||
  containsSub msg "Please retry in"

/-- strconv.ParseFloat followed by int truncation, restricted to the plain
decimal literals the service emits (optional fraction); other syntaxes the
Go parser would accept (signs, exponents, infinities) are rejected, which
only matters for inputs the program never receives. -/
def goParseFloatTrunc (l : List Char) : Option Nat :=
  let intPart := l.takeWhile (fun c => c.isDigit)
  let rest := l.dropWhile (fun c => c.isDigit)
  match rest with
  | [] => if intPart.isEmpty then none else some (Nat.ofDigits 10 (intPart.map (fun c => c.toNat - 48)).reverse)
  | '.' :: frac =>
    if intPart.isEmpty && frac.isEmpty then none
    else if frac.all (fun c => c.isDigit) then
      some (Nat.ofDigits 10 (intPart.map (fun c => c.toNat - 48)).reverse)
    else none
  | _ => none

/-- Seconds the loop sleeps on a rate-limited decision call: 60 by
default, or the parsed "Please retry in <n>s" hint plus a two-second
buffer.  The hint is used only when the "s" is not the first character of
the tail and the number parses. -/
def waitSecondsOf (msg : String) : Nat :=
  match indexOfSubFrom "Please retry in ".data msg.data with
  | none => 60
  | some idx =>
    let tail := msg.data.drop (idx + "Please retry in ".length)
    match indexOfSubFrom ['s'] tail with
    | none => 60
    | some sIdx =>
      if sIdx > 0 then
        match goParseFloatTrunc (trimGo (tail.take sIdx)) with
        | some f => f + 2
        | none => 60
      else 60

/-- The loop-protection key of an action: the action kind, extended with
the tool name for a tool call, and made unique by the sampled wall clock
for a scroll (fmt.Sprint of time.Now().UnixNano()). -/
def actionKey (a : AgentAction) (nano : Nat) : String :=
  if a.action = "tool" then
    if a.tool = "scroll" then a.action ++ ":" ++ a.tool ++ ":" ++ Nat.repr nano
    else a.action ++ ":" ++ a.tool
  else a.action

/-- Mutable state of the loop in main. -/
structure LoopState where
  task : String
  observation : Obs
  lastAction : String
  sameActionCount : Nat
  lastObsSig : List Nat
  stagnantCount : Nat
  searchSubmitted : Bool
  printedListings : Bool
  switchedToMoscow : Bool
  step : Nat
deriving DecidableEq

/-- State at the top of the loop: empty bookkeeping, step 1, and the nil
observation map (every field assertion yields ""). -/
def initState (task : String) : LoopState :=
  ⟨task, ⟨"", "", ""⟩, "", 0, [], 0, false, false, false, 1⟩

/-- Outcome of worker.Send for one tool call. -/
inductive WorkerResult where
  | sendErr (msg : String)
  | respErr (msg : String)
  | respOk (o : Obs)

/-- Outcome of decideNextAction: an error message or a normalized action. -/
inductive DecisionResult where
  | errMsg (msg : String)
  | ok (a : AgentAction)

/-- Everything the environment supplies to one loop iteration. -/
structure StepInput where
  decision : DecisionResult
  nano : Nat
  worker : WorkerResult
  answer : String

/-- How one iteration left the run. -/
inductive StepRes where
  | cont
  | finished
  | abortRepeat
  | abortLLM
deriving DecidableEq

/-- Observable effects of one iteration: worker commands written in order,
whether the extractor ran, the summary printed by a finish action, and
sleeps in milliseconds. -/
structure StepEffects where
  sent : List (String × List (String × Json))
  ranExtraction : Bool
  finishSummary : Option String
  sleptMs : List Nat

/-- The no-results fallback: on the first observation whose lowered text
contains the not-found phrases, switch to the Moscow search URL. -/
def moscowStep (s : LoopState) (vt : String) :
    LoopState × List (String × List (String × Json)) :=
  let low := toLowerGo vt
  if !s.switchedToMoscow &&
      (containsSub low "ничего не найдено" || containsSub low "не найдено") then
    ({ s with switchedToMoscow := true },
     [("navigate", [("url", Json.str "https://hh.ru/search/vacancy?text=AI%20Engineer&area=1")])])
  else (s, [])

/-- Post-processing of a successful tool call: store the observation, run
the stagnation detector (at a streak of 2 send one corrective scroll,
sleep, and skip the rest), update searchSubmitted, opportunistically run
the extractor once results are expected, apply the no-results fallback,
and sleep before the next step. -/
def toolSuccess (s : LoopState) (tool : String) (args : List (String × Json))
    (obs : Obs) : LoopState × StepRes × StepEffects :=
  let s1 := { s with observation := obs }
  let sig := obsSignature obs
  let stagnant := if sig = s1.lastObsSig then s1.stagnantCount + 1 else 0
  let s2 := { s1 with lastObsSig := sig, stagnantCount := stagnant }
  if stagnant ≥ 2 then
    ({ s2 with step := s2.step + 1 }, .cont,
     ⟨[(tool, args), ("scroll", [("direction", Json.str "down")])], false, none, [800]⟩)
  else
    let s3 := if isSearchResultsReady obs then { s2 with searchSubmitted := true } else s2
    let s4 := if containsSub obs.url "text=" && containsSub (toLowerGo obs.url) "ai" then
        { s3 with searchSubmitted := true }
      else s3
    if s4.searchSubmitted && !s4.printedListings && !(obs.visibleText = "") then
      let listings := ExtractListingsFromVisibleText obs.visibleText 3
      if listings.length > 0 then
        let s5 := { s4 with printedListings := true }
        if listings.length ≥ 3 then
          (s5, .finished, ⟨[(tool, args)], true, none, []⟩)
        else
          let s6 := (moscowStep s5 obs.visibleText).1
          let mcmds := (moscowStep s5 obs.visibleText).2
          ({ s6 with step := s6.step + 1 }, .cont,
           ⟨(tool, args) :: mcmds, true, none, [3000]⟩)
      else
        let s6 := (moscowStep s4 obs.visibleText).1
        let mcmds := (moscowStep s4 obs.visibleText).2
        ({ s6 with step := s6.step + 1 }, .cont,
         ⟨(tool, args) :: mcmds, true, none, [3000]⟩)
    else
      let s6 := (moscowStep s4 obs.visibleText).1
      let mcmds := (moscowStep s4 obs.visibleText).2
      ({ s6 with step := s6.step + 1 }, .cont,
       ⟨(tool, args) :: mcmds, false, none, [3000]⟩)

/-- The switch over the normalized action, after the repeat guard let the
step through. -/
def dispatchAction (s : LoopState) (a : AgentAction) (inp : StepInput) :
    LoopState × StepRes × StepEffects :=
  if a.action = "finish" then
    (s, .finished, ⟨[], false, some a.summary, []⟩)
  else if a.action = "ask_user" then
    ({ s with task := s.task ++ "\nUser answer: " ++ inp.answer, step := s.step + 1 },
     .cont, ⟨[], false, none, []⟩)
  else if a.action = "tool" then
    if a.tool = "" then
      ({ s with step := s.step + 1 }, .cont, ⟨[], false, none, []⟩)
    else
      let args := a.arguments.getD []
      match inp.worker with
      | .sendErr _ =>
        ({ s with step := s.step + 1 }, .cont, ⟨[(a.tool, args)], false, none, []⟩)
      | .respErr _ =>
        ({ s with step := s.step + 1 }, .cont, ⟨[(a.tool, args)], false, none, []⟩)
      | .respOk obs => toolSuccess s a.tool args obs
  else
    ({ s with step := s.step + 1 }, .cont, ⟨[], false, none, []⟩)

/-- One iteration of the loop in main: handle a decision-service failure (a
rate-limited call sleeps and retries the same step index; any other error
ends the run), then run the repeat guard (aborting before the action is
dispatched on a streak of 2), then dispatch. -/
def loopStep (s : LoopState) (inp : StepInput) : LoopState × StepRes × StepEffects :=
  match inp.decision with
  | .errMsg msg =>
    if isRateLimitMsg msg then
      (s, .cont, ⟨[], false, none, [1000 * waitSecondsOf msg]⟩)
    else
      (s, .abortLLM, ⟨[], false, none, []⟩)
  | .ok a =>
    let cur := actionKey a inp.nano
    let cnt := if cur = s.lastAction then s.sameActionCount + 1 else 0
    let s1 := { s with lastAction := cur, sameActionCount := cnt }
    if cnt ≥ 2 then (s1, .abortRepeat, ⟨[], false, none, []⟩)
    else dispatchAction s1 a inp

/-- Run iterations until one does not continue, collecting the results. -/
def runTrace (s : LoopState) : List StepInput → List (StepRes × StepEffects)
  | [] => []
  | inp :: rest =>
    let r := loopStep s inp
    match r.2.1 with
    | .cont => (r.2.1, r.2.2) :: runTrace r.1 rest
    | _ => [(r.2.1, r.2.2)]

/-- Results of a run, one per executed iteration. -/
def runResults (s : LoopState) (L : List StepInput) : List StepRes :=
  (runTrace s L).map Prod.fst

/-! ## Concrete inputs used by the witnesses and counterexamples -/

/-- The extractor test text of the specification. -/
def c3text : String :=
  "Найдено 5\nAI Engineer\nAcme Inc\nнерелевантная строка\nData Engineer\nBeta LLC"

/-- A canonical click tool call. -/
def clickAction : AgentAction := ⟨"tool", "click", some [], "", none, [], ""⟩

/-- A canonical scroll tool call. -/
def scrollAction : AgentAction := ⟨"tool", "scroll", some [], "", none, [], ""⟩

/-- A results-page observation whose text yields no listings. -/
def cxObs : Obs :=
  ⟨"https://hh.ru/search/vacancy?text=ai", "t", "Найдено 0 вакансий"⟩

/-- A successful click step returning cxObs. -/
def cxClickInput : StepInput := ⟨.ok clickAction, 0, .respOk cxObs, ""⟩

/-- A finish action whose summary payload is the JSON literal null. -/
def nullSummaryAction : AgentAction := ⟨"finish", "", none, "", some Json.null, [], ""⟩

/-- A finish action whose summary payload is an array of exactly two
record-shaped objects, with no records supplied. -/
def twoJobsAction : AgentAction :=
  ⟨"finish", "", none, "", some (Json.arr
    [Json.obj [("job_title", Json.str "T1"), ("company_name", Json.str "C1")],
     Json.obj [("job_title", Json.str "T2"), ("company_name", Json.str "C2")]]),
   [], ""⟩

/-- Raw decision fields of an implicit tool call that flattens its
arguments into an aliased "args" object. -/
def cxC6fields : List (String × Json) :=
  [("action", Json.str "click"), ("args", Json.obj [("element_id", Json.str "x")])]

/-- Raw decision fields on the tool-recovery path, exercising both merge
loops of normalizeAction. -/
def wC6fields : List (String × Json) :=
  [("action", Json.str "tool"),
   ("arguments", Json.obj [("element_id", Json.str "keep"), ("speed", Json.str "slow")]),
   ("args", Json.obj [("element_id", Json.str "x")]),
   ("direction", Json.str "down")]

/-- Raw decision object of a finish action with no summary field. -/
def c10fields : List (String × Json) := [("action", Json.str "finish")]

/-! ## Helper lemmas -/

theorem strApp_left_cancel {a b c : String} (h : a ++ b = a ++ c) : b = c := by
  apply String.ext
  have h2 := congrArg String.data h
  simp only [String.data_append] at h2
  exact List.append_cancel_left h2

theorem strApp_ne_of_ne {a : String} {b c : String} (h : b ≠ c) : a ++ b ≠ a ++ c :=
  fun hc => h (strApp_left_cancel hc)

theorem glookup_nil {k : String} : glookup [] k = none := rfl

theorem glookup_cons {k1 k : String} {v1 : Json} {m : List (String × Json)} :
    glookup ((k1, v1) :: m) k = if k1 = k then some v1 else glookup m k := by
  by_cases h : k1 = k <;> simp [glookup, List.find?_cons, h]

theorem glookup_insertOver_self (m : List (String × Json)) (k : String) (v : Json) :
    glookup (insertOver m k v) k = some v := by
  induction m with
  | nil => simp [insertOver, glookup_cons]
  | cons p rest ih =>
    rcases p with ⟨pk, pv⟩
    by_cases h : pk = k
    · simp [insertOver, h, glookup_cons]
    · simp [insertOver, h, glookup_cons, ih]

theorem glookup_insertOver_ne (m : List (String × Json)) (k k' : String) (v : Json)
    (h : k' ≠ k) : glookup (insertOver m k v) k' = glookup m k' := by
  have h2 : k ≠ k' := Ne.symm h
  induction m with
  | nil => simp [insertOver, glookup_cons, glookup_nil, h2]
  | cons p rest ih =>
    rcases p with ⟨pk, pv⟩
    by_cases hp : pk = k
    · subst hp
      simp [insertOver, glookup_cons, h2]
    · by_cases hk : pk = k'
      · simp [insertOver, hp, glookup_cons, hk, h]
      · simp [insertOver, hp, glookup_cons, hk, ih]

theorem glookup_none_iff {m : List (String × Json)} {k : String} :
    glookup m k = none ↔ k ∉ m.map Prod.fst := by
  induction m with
  | nil => simp [glookup_nil]
  | cons p rest ih =>
    rcases p with ⟨pk, pv⟩
    by_cases h : pk = k
    · simp [glookup_cons, h]
    · simp [glookup_cons, h, ih, Ne.symm h]

theorem mergeOver_not_key (base L : List (String × Json)) (k : String)
    (h : k ∉ L.map Prod.fst) : glookup (mergeOver base L) k = glookup base k := by
  induction L generalizing base with
  | nil => rfl
  | cons p rest ih =>
    rcases p with ⟨pk, pv⟩
    simp only [List.map_cons, List.mem_cons, not_or] at h
    simp only [mergeOver, List.foldl_cons]
    rw [show (List.foldl (fun acc p => insertOver acc p.1 p.2) (insertOver base pk pv) rest)
          = mergeOver (insertOver base pk pv) rest from rfl]
    rw [ih _ h.2, glookup_insertOver_ne _ _ _ _ h.1]

theorem mergeOver_mem (base L : List (String × Json)) (k : String) (v : Json)
    (hnd : (L.map Prod.fst).Nodup) (h : glookup L k = some v) :
    glookup (mergeOver base L) k = some v := by
  induction L generalizing base with
  | nil => simp [glookup_nil] at h
  | cons p rest ih =>
    rcases p with ⟨pk, pv⟩
    simp only [List.map_cons, List.nodup_cons] at hnd
    simp only [mergeOver, List.foldl_cons]
    rw [show (List.foldl (fun acc p => insertOver acc p.1 p.2) (insertOver base pk pv) rest)
          = mergeOver (insertOver base pk pv) rest from rfl]
    by_cases hk : pk = k
    · subst hk
      rw [glookup_cons] at h
      simp at h
      subst h
      rw [mergeOver_not_key _ _ _ hnd.1, glookup_insertOver_self]
    · rw [glookup_cons, if_neg hk] at h
      exact ih _ hnd.2 h

theorem mergeRoot_present (base L : List (String × Json)) (k : String) (v : Json)
    (h : glookup base k = some v) : glookup (mergeRoot base L) k = some v := by
  induction L generalizing base with
  | nil => exact h
  | cons p rest ih =>
    rcases p with ⟨pk, pv⟩
    simp only [mergeRoot, List.foldl_cons]
    rw [show ∀ b, (List.foldl (fun acc p =>
          if reservedNames.contains p.1 then acc
          else if (glookup acc p.1).isSome then acc
          else insertOver acc p.1 p.2) b rest) = mergeRoot b rest from fun b => rfl]
    by_cases hr : reservedNames.contains pk
    · simp only [hr, if_true]
      exact ih _ h
    · simp only [hr, Bool.false_eq_true, if_false]
      by_cases hs : (glookup base pk).isSome
      · simp only [hs, if_true]
        exact ih _ h
      · simp only [hs, Bool.false_eq_true, if_false]
        by_cases hk : k = pk
        · subst hk
          rw [h] at hs
          simp at hs
        · exact ih _ (by rw [glookup_insertOver_ne _ _ _ _ hk] ; exact h)

theorem mergeRoot_absent (base L : List (String × Json)) (k : String)
    (h : glookup base k = none) (hr : reservedNames.contains k = false) :
    glookup (mergeRoot base L) k = glookup L k := by
  induction L generalizing base with
  | nil => simp [mergeRoot, glookup_nil, h]
  | cons p rest ih =>
    rcases p with ⟨pk, pv⟩
    simp only [mergeRoot, List.foldl_cons]
    rw [show ∀ b, (List.foldl (fun acc p =>
          if reservedNames.contains p.1 then acc
          else if (glookup acc p.1).isSome then acc
          else insertOver acc p.1 p.2) b rest) = mergeRoot b rest from fun b => rfl]
    by_cases hk : pk = k
    · subst hk
      simp only [hr, Bool.false_eq_true, if_false, h, Option.isSome_none]
      rw [glookup_cons, if_pos rfl]
      exact mergeRoot_present _ _ _ _ (glookup_insertOver_self _ _ _)
    · rw [glookup_cons, if_neg hk]
      by_cases hrp : reservedNames.contains pk
      · simp only [hrp, if_true]
        exact ih _ h
      · simp only [hrp, Bool.false_eq_true, if_false]
        by_cases hs : (glookup base pk).isSome
        · simp only [hs, if_true]
          exact ih _ h
        · simp only [hs, Bool.false_eq_true, if_false]
          exact ih _ (by rw [glookup_insertOver_ne _ _ _ _ (Ne.symm hk)] ; exact h)

theorem insertOver_keys_mem {m : List (String × Json)} {k a : String} {v : Json} :
    a ∈ (insertOver m k v).map Prod.fst ↔ a = k ∨ a ∈ m.map Prod.fst := by
  induction m with
  | nil => simp [insertOver]
  | cons p rest ih =>
    rcases p with ⟨pk, pv⟩
    by_cases h : pk = k
    · subst h
      simp [insertOver]
    · simp only [insertOver, h, if_false, List.map_cons, List.mem_cons, ih]
      tauto

theorem insertOver_nodup {m : List (String × Json)} {k : String} {v : Json}
    (h : (m.map Prod.fst).Nodup) : ((insertOver m k v).map Prod.fst).Nodup := by
  induction m with
  | nil => simp [insertOver]
  | cons p rest ih =>
    rcases p with ⟨pk, pv⟩
    simp only [List.map_cons, List.nodup_cons] at h
    by_cases hk : pk = k
    · subst hk
      simp only [insertOver, if_pos]
      simp only [List.map_cons, List.nodup_cons]
      exact h
    · simp only [insertOver, hk, if_false, List.map_cons, List.nodup_cons]
      refine ⟨fun hc => ?_, ih h.2⟩
      rcases insertOver_keys_mem.1 hc with h1 | h1
      · exact hk h1
      · exact h.1 h1

theorem canonObj_nodup (f : List (String × Json)) :
    ((canonObj f).map Prod.fst).Nodup := by
  have aux : ∀ (l acc : List (String × Json)), (acc.map Prod.fst).Nodup →
      ((l.foldl (fun acc p => insertOver acc p.1 p.2) acc).map Prod.fst).Nodup := by
    intro l
    induction l with
    | nil => intro acc h; exact h
    | cons p rest ih =>
      intro acc h
      simp only [List.foldl_cons]
      exact ih _ (insertOver_nodup h)
  exact aux f [] (by simp)

theorem argsField_nodup (m : List (String × Json)) :
    ((argsField m).map Prod.fst).Nodup := by
  unfold argsField
  match glookup m "args" with
  | none => simp
  | some .null | some (.bool _) | some (.num _) | some (.str _) | some (.arr _) => simp
  | some (.obj f) => exact canonObj_nodup f

theorem extractLoop_length (want : Nat) (lines seen : List (List Char))
    (found : List Listing) (h : found.length < want) :
    (extractLoop want lines seen found).length ≤ want := by
  induction lines generalizing seen found with
  | nil => exact Nat.le_of_lt h
  | cons title rest ih =>
    simp only [extractLoop]
    split
    · exact ih seen found h
    · split
      · exact ih seen found h
      · split
        · exact ih seen found h
        · split
          · exact ih seen found h
          · split
            · simp only [List.length_append, List.length_cons, List.length_nil]
              omega
            · rename_i hlen
              apply ih
              simp only [List.length_append, List.length_cons, List.length_nil] at hlen ⊢
              omega

theorem extractLoop_nodup (want : Nat) (lines seen : List (List Char))
    (found : List Listing) (hnd : (found.map listingKey).Nodup)
    (hiff : ∀ k, k ∈ seen ↔ k ∈ found.map listingKey) :
    ((extractLoop want lines seen found).map listingKey).Nodup := by
  induction lines generalizing seen found with
  | nil => exact hnd
  | cons title rest ih =>
    simp only [extractLoop]
    split
    · exact ih seen found hnd hiff
    · split
      · exact ih seen found hnd hiff
      · split
        · exact ih seen found hnd hiff
        · rename_i company hfind
          split
          · exact ih seen found hnd hiff
          · rename_i hseen
            have hkey : pairKey title company ∉ found.map listingKey :=
              fun hc => hseen ((hiff _).2 hc)
            have hmap : (found ++ [Listing.mk (String.mk title) (String.mk company)]).map listingKey
                = found.map listingKey ++ [pairKey title company] := by
              simp [listingKey, pairKey]
            have hnd' : ((found ++ [Listing.mk (String.mk title) (String.mk company)]).map listingKey).Nodup := by
              rw [hmap]
              simp only [List.nodup_append, List.nodup_cons, List.nodup_nil]
              refine ⟨hnd, by simp, ?_⟩
              intro a ha
              simp only [List.mem_singleton]
              intro hb
              subst hb
              exact hkey ha
            split
            · exact hnd'
            · apply ih
              · exact hnd'
              · intro k
                rw [hmap]
                simp only [List.mem_cons, List.mem_append, List.mem_singleton]
                rw [hiff k]
                tauto

theorem moscowStep_lastAction (s : LoopState) (vt : String) :
    (moscowStep s vt).1.lastAction = s.lastAction := by
  simp only [moscowStep]
  split <;> rfl

theorem moscowStep_sameCount (s : LoopState) (vt : String) :
    (moscowStep s vt).1.sameActionCount = s.sameActionCount := by
  simp only [moscowStep]
  split <;> rfl

theorem moscowStep_step (s : LoopState) (vt : String) :
    (moscowStep s vt).1.step = s.step := by
  simp only [moscowStep]
  split <;> rfl

set_option maxHeartbeats 1000000 in
theorem toolSuccess_facts (s : LoopState) (tool : String)
    (args : List (String × Json)) (obs : Obs) :
    (toolSuccess s tool args obs).1.lastAction = s.lastAction ∧
    (toolSuccess s tool args obs).1.sameActionCount = s.sameActionCount ∧
    ((toolSuccess s tool args obs).2.1 = .cont ∨
      (toolSuccess s tool args obs).2.1 = .finished) ∧
    ((toolSuccess s tool args obs).2.1 = .cont →
      (toolSuccess s tool args obs).1.step = s.step + 1) := by
  simp only [toolSuccess]
  repeat' split
  all_goals
    simp [moscowStep_lastAction, moscowStep_sameCount, moscowStep_step]

set_option maxHeartbeats 2000000 in
theorem dispatchAction_facts (s : LoopState) (a : AgentAction) (inp : StepInput) :
    (dispatchAction s a inp).1.lastAction = s.lastAction ∧
    (dispatchAction s a inp).1.sameActionCount = s.sameActionCount ∧
    ((dispatchAction s a inp).2.1 = .cont ∨
      (dispatchAction s a inp).2.1 = .finished) ∧
    ((dispatchAction s a inp).2.1 = .cont →
      (dispatchAction s a inp).1.step = s.step + 1) := by
  simp only [dispatchAction]
  repeat' split
  all_goals first
    | exact toolSuccess_facts _ _ _ _
    | simp

theorem loopStep_rate (s : LoopState) (msg : String) (n : Nat) (w : WorkerResult)
    (ans : String) (h : isRateLimitMsg msg = true) :
    loopStep s ⟨.errMsg msg, n, w, ans⟩ =
      (s, .cont, ⟨[], false, none, [1000 * waitSecondsOf msg]⟩) := by
  simp [loopStep, h]

theorem loopStep_llmFatal (s : LoopState) (msg : String) (n : Nat) (w : WorkerResult)
    (ans : String) (h : isRateLimitMsg msg = false) :
    loopStep s ⟨.errMsg msg, n, w, ans⟩ =
      (s, .abortLLM, ⟨[], false, none, []⟩) := by
  simp [loopStep, h]

theorem loopStep_budget (s : LoopState) (inp : StepInput)
    (hc : (loopStep s inp).2.1 = .cont)
    (hs : (loopStep s inp).1.step = s.step) :
    ∃ msg, inp.decision = .errMsg msg ∧ isRateLimitMsg msg = true := by
  obtain ⟨dec, n, w, ans⟩ := inp
  cases dec with
  | errMsg msg =>
    by_cases h : isRateLimitMsg msg = true
    · exact ⟨msg, rfl, h⟩
    · rw [loopStep_llmFatal s msg n w ans (by simpa using h)] at hc
      simp at hc
  | ok a =>
    exfalso
    simp only [loopStep] at hc hs
    by_cases hg : (if actionKey a n = s.lastAction then s.sameActionCount + 1 else 0) ≥ 2
    · rw [if_pos hg] at hc
      simp at hc
    · rw [if_neg hg] at hc hs
      have hfacts := dispatchAction_facts
        { s with lastAction := actionKey a n,
                 sameActionCount := if actionKey a n = s.lastAction then s.sameActionCount + 1 else 0 }
        a ⟨.ok a, n, w, ans⟩
      have hstep := hfacts.2.2.2 hc
      rw [hstep] at hs
      simp at hs

/-! ## Claim theorems -/

set_option maxHeartbeats 2000000 in
/-- C3: on the text "Найдено 5\nAI Engineer\nAcme Inc\nнерелевантная
строка\nData Engineer\nBeta LLC" the extractor returns exactly the pairs
(AI Engineer, Acme Inc) and (Data Engineer, Beta LLC) in that order for a
requested count of 2, and only the first pair for a count of 1. -/
theorem C3_extractor_order :
    ExtractListingsFromVisibleText c3text 2 =
      [⟨"AI Engineer", "Acme Inc"⟩, ⟨"Data Engineer", "Beta LLC"⟩] ∧
    ExtractListingsFromVisibleText c3text 1 = [⟨"AI Engineer", "Acme Inc"⟩] :=
  ⟨by decide, by decide⟩

set_option maxHeartbeats 1000000 in
/-- C4 counterexample: with a requested count of 0 the extractor still
returns one record, because the size check runs only after a pair has
been appended; the claim "at most N records for every requested count N"
fails at N = 0. -/
theorem C4_extractor_bound_cx :
    ¬ ((ExtractListingsFromVisibleText c3text 0).length ≤ 0) := by
  decide

/-- C4 amended: for every requested count of at least one, the extractor
returns at most that many records (only N = 0 escapes the bound), and for
every input and count no two returned records share the case-insensitive
composite (title, company) key. -/
theorem C4_extractor_bound (visible : String) (want : Nat) :
    (1 ≤ want → (ExtractListingsFromVisibleText visible want).length ≤ want) ∧
    ((ExtractListingsFromVisibleText visible want).map listingKey).Nodup := by
  constructor
  · intro h
    unfold ExtractListingsFromVisibleText
    exact extractLoop_length _ _ _ _ h
  · unfold ExtractListingsFromVisibleText
    exact extractLoop_nodup _ _ _ _ (by simp) (by simp)

set_option maxHeartbeats 2000000 in
/-- C4 witness: the bound and the deduplication at the concrete text and
count 2. -/
theorem C4_extractor_bound_witness :
    (ExtractListingsFromVisibleText c3text 2).length ≤ 2 ∧
    ((ExtractListingsFromVisibleText c3text 2).map listingKey).Nodup :=
  ⟨(C4_extractor_bound c3text 2).1 (by decide), (C4_extractor_bound c3text 2).2⟩

/-- C5 counterexample: a summary payload that is the JSON literal null is
neither a JSON string nor an array of record-shaped objects, yet the
coercion does not fall back to "Done.": encoding/json accepts null in the
string decode as a no-op, so the summary becomes the empty string. -/
theorem C5_results_coercion_cx :
    nullSummaryAction.summaryRaw = some Json.null ∧
    (finalizeActionFields nullSummaryAction).summary = "" ∧
    (finalizeActionFields nullSummaryAction).summary ≠ "Done." :=
  ⟨rfl, rfl, by decide⟩

/-- C5 amended: a string payload is the summary verbatim; a payload
decodable as a record array yields "Found N jobs." and fills the records
only when none were supplied; the JSON literal null is accepted by the
string path and leaves the summary empty; every other payload yields the
fixed "Done.".  In particular an array of exactly two record objects with
no supplied records yields "Found 2 jobs." and two records. -/
theorem C5_results_coercion (a : AgentAction) (j : Json)
    (h : a.summaryRaw = some j) :
    (∀ s, j = Json.str s → finalizeActionFields a = { a with summary := s }) ∧
    (j = Json.null → finalizeActionFields a = { a with summary := "" }) ∧
    (∀ arr, goUnmarshalString j = none → unmarshalJobItems j = some arr →
      finalizeActionFields a = { a with
        results := if a.results = [] then arr else a.results,
        summary := foundMsg arr.length }) ∧
    (goUnmarshalString j = none → unmarshalJobItems j = none →
      finalizeActionFields a = { a with summary := "Done." }) ∧
    (finalizeActionFields twoJobsAction).summary = "Found 2 jobs." ∧
    (finalizeActionFields twoJobsAction).results.length = 2 := by
  refine ⟨?_, ?_, ?_, ?_, rfl, rfl⟩
  · intro s hj
    subst hj
    simp [finalizeActionFields, h, goUnmarshalString]
  · intro hj
    subst hj
    simp [finalizeActionFields, h, goUnmarshalString]
  · intro arr hgs hjm
    simp [finalizeActionFields, h, hgs, hjm]
  · intro hgs hjm
    simp [finalizeActionFields, h, hgs, hjm]

/-- C5 witness: the amended coercion applied to the null payload and to a
concrete two-record array payload. -/
theorem C5_results_coercion_witness :
    finalizeActionFields nullSummaryAction =
      { nullSummaryAction with summary := "" } ∧
    finalizeActionFields twoJobsAction = { twoJobsAction with
      results := [⟨"T1", "C1"⟩, ⟨"T2", "C2"⟩], summary := foundMsg 2 } := by
  constructor
  · exact (C5_results_coercion nullSummaryAction Json.null rfl).2.1 rfl
  · have h := (C5_results_coercion twoJobsAction
      (Json.arr
        [Json.obj [("job_title", Json.str "T1"), ("company_name", Json.str "C1")],
         Json.obj [("job_title", Json.str "T2"), ("company_name", Json.str "C2")]])
      rfl).2.2.1 [⟨"T1", "C1"⟩, ⟨"T2", "C2"⟩] rfl rfl
    simpa using h

/-- C7 counterexample: a handshake whose status record is "error" makes
startup surface a fatal error, but the spawned process is not killed (no
failure path of StartPyWorker terminates it, and main never registers the
deferred Stop when startup fails), contradicting the claim that a failed
handshake still attempts to terminate the spawned process. -/
theorem C7_bridge_startup_cx :
    (startPyWorker (.resp "error" "bad")).1 =
      .error "worker did not start: bad" ∧
    (startPyWorker (.resp "error" "bad")).2.sentCmds = [] ∧
    (startPyWorker (.resp "error" "bad")).2.killed = false :=
  ⟨rfl, rfl, rfl⟩

/-- C7 amended: every failed handshake (unreadable line, unparsable line,
or a status other than "ok") surfaces a fatal error before any command is
sent, but the spawned worker process is left running: none of the failure
paths attempts to terminate it. -/
theorem C7_bridge_startup (line : HandshakeLine)
    (h : ∀ status message, line = .resp status message → status ≠ "ok") :
    (∃ e, (startPyWorker line).1 = .error e) ∧
    (startPyWorker line).2.sentCmds = [] ∧
    (startPyWorker line).2.killed = false := by
  cases line with
  | readErr => exact ⟨⟨_, rfl⟩, rfl, rfl⟩
  | parseErr l => exact ⟨⟨_, rfl⟩, rfl, rfl⟩
  | resp status message =>
    have hs : status ≠ "ok" := h status message rfl
    refine ⟨⟨"worker did not start: " ++ message, ?_⟩, ?_, ?_⟩ <;>
      simp [startPyWorker, hs]

/-- C7 witness: the amended statement at the "error" handshake. -/
theorem C7_bridge_startup_witness :
    (∃ e, (startPyWorker (.resp "error" "bad")).1 = .error e) ∧
    (startPyWorker (.resp "error" "bad")).2.sentCmds = [] ∧
    (startPyWorker (.resp "error" "bad")).2.killed = false :=
  C7_bridge_startup (.resp "error" "bad")
    (fun status _ hline => by
      cases hline
      decide)

/-- C9: a decision-service failure matching the rate-limit signature makes
the loop sleep for the hint-derived (or default) duration and retry the
same step with the state untouched; any other decision-service failure
ends the run; and a continuing iteration that does not advance the step
index can only be a rate-limited decision call, so every other continuing
iteration consumes budget. -/
theorem C9_rate_limit_retry :
    (∀ (s : LoopState) (msg : String) (n : Nat) (w : WorkerResult) (ans : String),
      isRateLimitMsg msg = true →
      loopStep s ⟨.errMsg msg, n, w, ans⟩ =
        (s, .cont, ⟨[], false, none, [1000 * waitSecondsOf msg]⟩)) ∧
    (∀ (s : LoopState) (msg : String) (n : Nat) (w : WorkerResult) (ans : String),
      isRateLimitMsg msg = false →
      loopStep s ⟨.errMsg msg, n, w, ans⟩ =
        (s, .abortLLM, ⟨[], false, none, []⟩)) ∧
    (∀ (s : LoopState) (inp : StepInput),
      (loopStep s inp).2.1 = .cont →
      (loopStep s inp).1.step = s.step →
      ∃ msg, inp.decision = .errMsg msg ∧ isRateLimitMsg msg = true) :=
  ⟨loopStep_rate, loopStep_llmFatal, loopStep_budget⟩

/-- C9 witness: a quota message sleeps 58 seconds (56 second hint plus the
two-second buffer) and leaves the state unchanged; a plain error aborts. -/
theorem C9_rate_limit_retry_witness :
    loopStep (initState "t")
        ⟨.errMsg "Quota exceeded ... Please retry in 56.25s.", 0, .respErr "", ""⟩ =
      (initState "t", .cont, ⟨[], false, none, [58000]⟩) ∧
    loopStep (initState "t") ⟨.errMsg "connection refused", 0, .respErr "", ""⟩ =
      (initState "t", .abortLLM, ⟨[], false, none, []⟩) := by
  constructor
  · have h := C9_rate_limit_retry.1 (initState "t")
      "Quota exceeded ... Please retry in 56.25s." 0 (.respErr "") "" (by decide)
    rw [h]
    have : waitSecondsOf "Quota exceeded ... Please retry in 56.25s." = 58 := by decide
    rw [this]
  · exact C9_rate_limit_retry.2.1 (initState "t") "connection refused" 0
      (.respErr "") "" (by decide)

/-- C10: a finish payload with no summary field decodes with an absent raw
summary and an empty summary string, finalization returns it unchanged
(the "Done." fallback fires only when a summary field is present and both
the string and the record-array decodes fail), and dispatching such a
finish action prints the terminal success line with the empty summary. -/
theorem C10_missing_summary :
    (∀ (f : List (String × Json)) (a : AgentAction),
      decodeAgentAction (Json.obj f) = some a →
      glookup (canonObj f) "summary" = none →
      a.summaryRaw = none ∧ a.summary = "" ∧ finalizeActionFields a = a) ∧
    (∀ (b : AgentAction) (q : Json), b.summaryRaw = some q →
      goUnmarshalString q = none → unmarshalJobItems q = none →
      (finalizeActionFields b).summary = "Done.") ∧
    (∀ (s : LoopState) (a : AgentAction) (n : Nat) (w : WorkerResult) (ans : String),
      a.action = "finish" → a.summary = "" →
      (if actionKey a n = s.lastAction then s.sameActionCount + 1 else 0) < 2 →
      (loopStep s ⟨.ok a, n, w, ans⟩).2.1 = .finished ∧
      (loopStep s ⟨.ok a, n, w, ans⟩).2.2.finishSummary = some "") := by
  refine ⟨?_, ?_, ?_⟩
  · intro f a hdec hsum
    simp only [decodeAgentAction] at hdec
    split at hdec
    · rename_i ac tl ar q rs heq
      rw [Option.some_inj] at hdec
      subst hdec
      refine ⟨hsum, rfl, ?_⟩
      simp [finalizeActionFields, hsum]
    · simp at hdec
  · intro b q hb hgs hjm
    simp [finalizeActionFields, hb, hgs, hjm]
  · intro s a n w ans ha hsum hg
    simp only [loopStep]
    rw [if_neg (by omega)]
    simp [dispatchAction, ha, hsum]

/-- C10 witness: the raw finish object with no summary field, a numeric
summary payload hitting the "Done." fallback, and the finish dispatch
printing the empty summary from the start state. -/
theorem C10_missing_summary_witness :
    (∀ a : AgentAction, decodeAgentAction (Json.obj c10fields) = some a →
      a.summaryRaw = none) ∧
    (finalizeActionFields ⟨"finish", "", none, "", some (Json.num 5), [], ""⟩).summary
      = "Done." ∧
    (loopStep (initState "t")
        ⟨.ok ⟨"finish", "", none, "", none, [], ""⟩, 0, .respErr "", ""⟩).2.2.finishSummary
      = some "" := by
  refine ⟨?_, ?_, ?_⟩
  · intro a ha
    exact (C10_missing_summary.1 c10fields a ha rfl).1
  · exact C10_missing_summary.2.1 ⟨"finish", "", none, "", some (Json.num 5), [], ""⟩
      (Json.num 5) rfl rfl rfl
  · exact (C10_missing_summary.2.2 (initState "t")
      ⟨"finish", "", none, "", none, [], ""⟩ 0 (.respErr "") "" rfl rfl (by decide)).2

/-- C8: when a dispatched tool call fails — the send errors or the worker
answers with status "error" — the iteration leaves the Observation and
the stagnation bookkeeping untouched, runs no extraction, and the loop
continues with the next step; only the repeat-guard fields and the step
index change. -/
theorem C8_worker_error_preserves (s : LoopState) (a : AgentAction) (n : Nat)
    (msg : String) (ans : String)
    (ha : a.action = "tool") (ht : a.tool ≠ "")
    (hg : (if actionKey a n = s.lastAction then s.sameActionCount + 1 else 0) < 2) :
    loopStep s ⟨.ok a, n, .sendErr msg, ans⟩ =
      ({ s with lastAction := actionKey a n,
                sameActionCount :=
                  if actionKey a n = s.lastAction then s.sameActionCount + 1 else 0,
                step := s.step + 1 }, .cont,
       ⟨[(a.tool, a.arguments.getD [])], false, none, []⟩) ∧
    loopStep s ⟨.ok a, n, .respErr msg, ans⟩ =
      ({ s with lastAction := actionKey a n,
                sameActionCount :=
                  if actionKey a n = s.lastAction then s.sameActionCount + 1 else 0,
                step := s.step + 1 }, .cont,
       ⟨[(a.tool, a.arguments.getD [])], false, none, []⟩) := by
  constructor <;>
  · simp only [loopStep]
    rw [if_neg (by omega)]
    simp [dispatchAction, ha, ht]

/-- C8 witness: a failed click from the start state keeps the empty
observation, continues to step 2, and updates only the repeat-guard key. -/
theorem C8_worker_error_preserves_witness :
    loopStep (initState "t") ⟨.ok clickAction, 0, .sendErr "pipe", ""⟩ =
      ({ (initState "t") with lastAction := "tool:click", step := 2 }, .cont,
       ⟨[("click", [])], false, none, []⟩) ∧
    loopStep (initState "t") ⟨.ok clickAction, 0, .respErr "boom", ""⟩ =
      ({ (initState "t") with lastAction := "tool:click", step := 2 }, .cont,
       ⟨[("click", [])], false, none, []⟩) := by
  have h := C8_worker_error_preserves (initState "t") clickAction 0 "pipe" ""
    rfl (by decide) (by decide)
  have h2 := C8_worker_error_preserves (initState "t") clickAction 0 "boom" ""
    rfl (by decide) (by decide)
  constructor
  · rw [h.1]
    rfl
  · rw [h2.2]
    rfl

theorem normalizeAction_case2_args (a : AgentAction) (m : List (String × Json))
    (ha : a.action = "tool") (ht : a.tool = "") :
    (normalizeAction a m).arguments =
      some (mergeRoot (mergeOver (a.arguments.getD []) (argsField m)) m) := by
  have h1 : ¬ (toolNames.contains a.action = true) := by
    rw [ha]
    decide
  simp only [normalizeAction, if_neg h1, if_pos (And.intro ha ht)]
  repeat' split
  all_goals rfl

/-- C6 counterexample: a raw decision that names the tool directly in the
discriminator and flattens its parameter into an aliased "args" object is
normalized into a tool action (Case 1), but the merge loops never run
(they are reached only when the discriminator is "tool" and no tool name
was decoded), so the args data is dropped: the arguments map stays nil
even though "args" holds element_id. -/
theorem C6_flattening_cx :
    decodeAgentAction (Json.obj cxC6fields) =
      some ⟨"click", "", none, "", none, [], ""⟩ ∧
    glookup (argsField (canonObj cxC6fields)) "element_id" =
      some (Json.str "x") ∧
    (normalizeAction ⟨"click", "", none, "", none, [], ""⟩ (canonObj cxC6fields)).action
      = "tool" ∧
    (normalizeAction ⟨"click", "", none, "", none, [], ""⟩ (canonObj cxC6fields)).tool
      = "click" ∧
    (normalizeAction ⟨"click", "", none, "", none, [], ""⟩ (canonObj cxC6fields)).arguments
      = none :=
  ⟨rfl, rfl, rfl, rfl, rfl⟩

/-- C6 amended: argument flattening happens exactly on the recovery path,
when the parsed action has discriminator "tool" and an empty tool field:
there, every entry of the aliased "args" object lands in the arguments
map (overriding parsed arguments), parsed argument entries outside "args"
survive, and every remaining unrecognized top-level field is merged
without overwriting entries already present. -/
theorem C6_flattening (a : AgentAction) (m : List (String × Json))
    (ha : a.action = "tool") (ht : a.tool = "") (k : String) :
    (∀ v, glookup (argsField m) k = some v →
      glookup ((normalizeAction a m).arguments.getD []) k = some v) ∧
    (∀ v, glookup (argsField m) k = none →
      glookup (a.arguments.getD []) k = some v →
      glookup ((normalizeAction a m).arguments.getD []) k = some v) ∧
    (∀ v, glookup (mergeOver (a.arguments.getD []) (argsField m)) k = none →
      reservedNames.contains k = false →
      glookup m k = some v →
      glookup ((normalizeAction a m).arguments.getD []) k = some v) := by
  rw [show (normalizeAction a m).arguments.getD []
        = mergeRoot (mergeOver (a.arguments.getD []) (argsField m)) m from by
    rw [normalizeAction_case2_args a m ha ht]
    rfl]
  refine ⟨?_, ?_, ?_⟩
  · intro v hv
    exact mergeRoot_present _ _ _ _
      (mergeOver_mem _ _ _ _ (argsField_nodup m) hv)
  · intro v hnone hv
    refine mergeRoot_present _ _ _ _ ?_
    rw [mergeOver_not_key _ _ _ (glookup_none_iff.1 hnone)]
    exact hv
  · intro v hnone hr hv
    rw [mergeRoot_absent _ _ _ hnone hr]
    exact hv

/-- C6 witness: the amended merge at a concrete recovery-path decision:
the args value wins over the parsed arguments entry, the parsed "speed"
entry survives, and the unrecognized root field "direction" is folded in. -/
theorem C6_flattening_witness :
    glookup ((normalizeAction
        ⟨"tool", "", some [("element_id", Json.str "keep"), ("speed", Json.str "slow")],
         "", none, [], ""⟩ (canonObj wC6fields)).arguments.getD []) "element_id"
      = some (Json.str "x") ∧
    glookup ((normalizeAction
        ⟨"tool", "", some [("element_id", Json.str "keep"), ("speed", Json.str "slow")],
         "", none, [], ""⟩ (canonObj wC6fields)).arguments.getD []) "speed"
      = some (Json.str "slow") ∧
    glookup ((normalizeAction
        ⟨"tool", "", some [("element_id", Json.str "keep"), ("speed", Json.str "slow")],
         "", none, [], ""⟩ (canonObj wC6fields)).arguments.getD []) "direction"
      = some (Json.str "down") := by
  refine ⟨?_, ?_, ?_⟩
  · exact (C6_flattening _ (canonObj wC6fields)
      rfl rfl "element_id").1 (Json.str "x") rfl
  · exact (C6_flattening _ (canonObj wC6fields)
      rfl rfl "speed").2.1 (Json.str "slow") rfl rfl
  · exact (C6_flattening _ (canonObj wC6fields)
      rfl rfl "direction").2.2 (Json.str "down") rfl rfl rfl

theorem moscowStep_stagnant (s : LoopState) (vt : String) :
    (moscowStep s vt).1.stagnantCount = s.stagnantCount := by
  simp only [moscowStep]
  split <;> rfl

set_option maxHeartbeats 2000000 in
/-- C2 counterexample: from a fresh state, two consecutive successful
clicks returning the same observation (hence identical fingerprints) do
not trigger the corrective scroll: the second step only raises the
stagnation streak to one, sends nothing but the click, and still runs the
extractor, refuting a trigger at two consecutive identical fingerprints. -/
theorem C2_stagnation_cx :
    (runTrace (initState "t") [cxClickInput, cxClickInput]).map
        (fun p => (p.1, p.2.sent.map Prod.fst, p.2.ranExtraction, p.2.sleptMs)) =
      [(.cont, ["click"], true, [3000]), (.cont, ["click"], true, [3000])] := by
  decide

/-- C2 amended: the corrective scroll fires on the third consecutive
identical fingerprint, when the stagnation streak reaches two: that
iteration sends exactly one corrective scroll after the tool command,
runs no extraction, sleeps briefly, and continues.  A first repetition
(two consecutive identical fingerprints) only raises the streak to one
and post-processing proceeds normally (no corrective-scroll sleep). -/
theorem C2_stagnation (s : LoopState) (a : AgentAction) (n : Nat) (ans : String)
    (obs : Obs)
    (ha : a.action = "tool") (htool : a.tool ≠ "")
    (hg : (if actionKey a n = s.lastAction then s.sameActionCount + 1 else 0) < 2)
    (heq : obsSignature obs = s.lastObsSig) :
    (s.stagnantCount = 1 →
      loopStep s ⟨.ok a, n, .respOk obs, ans⟩ =
        ({ s with lastAction := actionKey a n,
                  sameActionCount :=
                    if actionKey a n = s.lastAction then s.sameActionCount + 1 else 0,
                  observation := obs, lastObsSig := obsSignature obs,
                  stagnantCount := 2, step := s.step + 1 }, .cont,
         ⟨[(a.tool, a.arguments.getD []), ("scroll", [("direction", Json.str "down")])],
          false, none, [800]⟩)) ∧
    (s.stagnantCount = 0 →
      (loopStep s ⟨.ok a, n, .respOk obs, ans⟩).1.stagnantCount = 1 ∧
      (loopStep s ⟨.ok a, n, .respOk obs, ans⟩).2.2.sleptMs ≠ [800]) := by
  constructor
  · intro hst
    simp only [loopStep]
    rw [if_neg (by omega)]
    simp [dispatchAction, ha, htool, toolSuccess, heq, hst]
  · intro hst
    simp only [loopStep]
    rw [if_neg (by omega)]
    simp only [dispatchAction, ha]
    simp only [show (("tool" : String) = "finish") = False from by simp,
      show (("tool" : String) = "ask_user") = False from by simp,
      show (("tool" : String) = "tool") = True from by simp,
      if_false, if_true]
    rw [if_neg htool]
    simp only [toolSuccess, heq, hst]
    refine ⟨?_, ?_⟩ <;>
    · simp only [show ((0 : Nat) + 1 ≥ 2) = False from by simp, if_false,
        show (s.lastObsSig = s.lastObsSig) = True from by simp, if_true]
      repeat' split
      all_goals simp [moscowStep_stagnant]

/-- C2 witness: with the streak already at one, a third identical
observation triggers exactly one corrective scroll and an 800 ms sleep;
with the streak at zero, the same repetition only raises it to one. -/
theorem C2_stagnation_witness :
    loopStep { (initState "t") with stagnantCount := 1, lastObsSig := obsSignature cxObs }
        ⟨.ok clickAction, 0, .respOk cxObs, ""⟩ =
      ({ (initState "t") with
          lastAction := "tool:click", observation := cxObs,
          lastObsSig := obsSignature cxObs, stagnantCount := 2, step := 2 }, .cont,
       ⟨[("click", []), ("scroll", [("direction", Json.str "down")])],
        false, none, [800]⟩) ∧
    (loopStep { (initState "t") with lastObsSig := obsSignature cxObs }
        ⟨.ok clickAction, 0, .respOk cxObs, ""⟩).1.stagnantCount = 1 := by
  constructor
  · have h := (C2_stagnation
      { (initState "t") with stagnantCount := 1, lastObsSig := obsSignature cxObs }
      clickAction 0 "" cxObs rfl (by decide) (by decide) rfl).1 rfl
    rw [h]
    rfl
  · exact ((C2_stagnation
      { (initState "t") with lastObsSig := obsSignature cxObs }
      clickAction 0 "" cxObs rfl (by decide) (by decide) rfl).2 rfl).1

theorem actionKey_scroll (a : AgentAction) (n : Nat) (ha : a.action = "tool")
    (ht : a.tool = "scroll") :
    actionKey a n = "tool:scroll:" ++ Nat.repr n := by
  simp only [actionKey, ha, ht, if_pos rfl]
  rfl

theorem loopStep_ok_noRepeat (s : LoopState) (a : AgentAction) (n : Nat)
    (w : WorkerResult) (ans : String) (h : ¬ actionKey a n = s.lastAction) :
    loopStep s ⟨.ok a, n, w, ans⟩ =
      dispatchAction { s with lastAction := actionKey a n, sameActionCount := 0 }
        a ⟨.ok a, n, w, ans⟩ := by
  simp only [loopStep]
  rw [if_neg h]
  rw [if_neg (by omega)]

theorem scrollRun_aux (ans : String) (L : List (AgentAction × Nat × WorkerResult)) :
    ∀ s : LoopState,
    (∀ x ∈ L, x.1.action = "tool" ∧ x.1.tool = "scroll") →
    List.Chain' (fun p q => Nat.repr p ≠ Nat.repr q) (L.map (fun x => x.2.1)) →
    (∀ a n w rest, L = (a, n, w) :: rest →
      s.lastAction ≠ "tool:scroll:" ++ Nat.repr n) →
    ∀ r ∈ runResults s (L.map (fun x => ⟨.ok x.1, x.2.1, x.2.2, ans⟩)),
      r ≠ .abortRepeat := by
  induction L with
  | nil =>
    intro s _ _ _ r hr
    simp [runResults, runTrace] at hr
  | cons x rest ih =>
    obtain ⟨a, n, w⟩ := x
    intro s hall hch hhead r hr
    have ha := hall (a, n, w) (List.mem_cons_self _ _)
    have hkey : actionKey a n = "tool:scroll:" ++ Nat.repr n :=
      actionKey_scroll a n ha.1 ha.2
    have hne : ¬ actionKey a n = s.lastAction := by
      rw [hkey]
      exact fun hc => hhead a n w rest rfl hc.symm
    simp only [List.map_cons, runResults, runTrace,
      loopStep_ok_noRepeat s a n w ans hne] at hr
    rcases dispatchAction_facts
        { s with lastAction := actionKey a n, sameActionCount := 0 }
        a ⟨.ok a, n, w, ans⟩ with ⟨hla, hsc, hres, _⟩
    rcases hres with hc | hf
    · rw [hc] at hr
      simp only [List.map_cons] at hr
      rcases List.mem_cons.1 hr with hr0 | hr1
      · rw [hr0]
        simp
      · refine ih (dispatchAction
            { s with lastAction := actionKey a n, sameActionCount := 0 }
            a ⟨.ok a, n, w, ans⟩).1
          (fun y hy => hall y (List.mem_cons_of_mem _ hy)) ?_ ?_ r ?_
        · exact (List.chain'_cons'.1 hch).2
        · intro a' n' w' rest2 hrest
          rw [hla, hkey]
          have hrel : Nat.repr n ≠ Nat.repr n' := by
            have := (List.chain'_cons'.1 hch).1
            subst hrest
            simp only [List.map_cons, List.head?_cons] at this
            exact this n' rfl
          exact strApp_ne_of_ne hrel
        · simpa [runResults] using hr1
    · rw [hf] at hr
      simp only [List.map_cons] at hr
      rcases List.mem_cons.1 hr with hr0 | hr1
      · rw [hr0]
        simp
      · simp at hr1

theorem loopStep_ok_repeatStep (s : LoopState) (a : AgentAction) (n : Nat)
    (w : WorkerResult) (ans : String) (h : actionKey a n = s.lastAction)
    (hc : s.sameActionCount + 1 < 2) :
    loopStep s ⟨.ok a, n, w, ans⟩ =
      dispatchAction
        { s with lastAction := actionKey a n,
                 sameActionCount := s.sameActionCount + 1 }
        a ⟨.ok a, n, w, ans⟩ := by
  simp only [loopStep]
  rw [if_pos h]
  rw [if_neg (by omega)]

theorem loopStep_ok_repeatAbort (s : LoopState) (a : AgentAction) (n : Nat)
    (w : WorkerResult) (ans : String) (h : actionKey a n = s.lastAction)
    (hc : s.sameActionCount + 1 ≥ 2) :
    loopStep s ⟨.ok a, n, w, ans⟩ =
      ({ s with lastAction := actionKey a n,
                sameActionCount := s.sameActionCount + 1 },
       .abortRepeat, ⟨[], false, none, []⟩) := by
  simp only [loopStep]
  rw [if_pos h]
  rw [if_pos hc]

theorem dispatchAction_toolErr (s : LoopState) (a : AgentAction) (n : Nat)
    (msg ans : String) (ha : a.action = "tool") (ht : a.tool ≠ "") :
    dispatchAction s a ⟨.ok a, n, .respErr msg, ans⟩ =
      ({ s with step := s.step + 1 }, .cont,
       ⟨[(a.tool, a.arguments.getD [])], false, none, []⟩) := by
  simp [dispatchAction, ha, ht]

theorem repeatThree_helper (s : LoopState) (t : String)
    (args : Option (List (String × Json))) (msg ans : String) (n : Nat)
    (hts : t ≠ "scroll") (hte : t ≠ "")
    (hla : s.lastAction ≠ "tool" ++ ":" ++ t) :
    runTrace s
      [⟨.ok ⟨"tool", t, args, "", none, [], ""⟩, n, .respErr msg, ans⟩,
       ⟨.ok ⟨"tool", t, args, "", none, [], ""⟩, n, .respErr msg, ans⟩,
       ⟨.ok ⟨"tool", t, args, "", none, [], ""⟩, n, .respErr msg, ans⟩] =
      [(.cont, ⟨[(t, args.getD [])], false, none, []⟩),
       (.cont, ⟨[(t, args.getD [])], false, none, []⟩),
       (.abortRepeat, ⟨[], false, none, []⟩)] := by
  have hkey : actionKey ⟨"tool", t, args, "", none, [], ""⟩ n = "tool" ++ ":" ++ t := by
    simp [actionKey, hts]
  have h1 : ¬ actionKey ⟨"tool", t, args, "", none, [], ""⟩ n = s.lastAction := by
    rw [hkey]
    exact fun hc => hla hc.symm
  have e1 : loopStep s ⟨.ok ⟨"tool", t, args, "", none, [], ""⟩, n, .respErr msg, ans⟩ =
      ({ s with lastAction := "tool" ++ ":" ++ t, sameActionCount := 0,
                step := s.step + 1 },
       .cont, ⟨[(t, args.getD [])], false, none, []⟩) := by
    rw [loopStep_ok_noRepeat s _ n (.respErr msg) ans h1,
        dispatchAction_toolErr _ _ n msg ans rfl hte, hkey]
  have e2 : loopStep
      { s with lastAction := "tool" ++ ":" ++ t, sameActionCount := 0,
               step := s.step + 1 }
      ⟨.ok ⟨"tool", t, args, "", none, [], ""⟩, n, .respErr msg, ans⟩ =
      ({ s with lastAction := "tool" ++ ":" ++ t, sameActionCount := 1,
                step := s.step + 1 + 1 },
       .cont, ⟨[(t, args.getD [])], false, none, []⟩) := by
    rw [loopStep_ok_repeatStep
        { s with lastAction := "tool" ++ ":" ++ t, sameActionCount := 0,
                 step := s.step + 1 }
        ⟨"tool", t, args, "", none, [], ""⟩ n (.respErr msg) ans
        (by rw [hkey]) (show (0 : Nat) + 1 < 2 by omega),
        dispatchAction_toolErr _ _ n msg ans rfl hte, hkey]
  have e3 : loopStep
      { s with lastAction := "tool" ++ ":" ++ t, sameActionCount := 1,
               step := s.step + 1 + 1 }
      ⟨.ok ⟨"tool", t, args, "", none, [], ""⟩, n, .respErr msg, ans⟩ =
      ({ s with lastAction := "tool" ++ ":" ++ t, sameActionCount := 2,
                step := s.step + 1 + 1 },
       .abortRepeat, ⟨[], false, none, []⟩) := by
    rw [loopStep_ok_repeatAbort
        { s with lastAction := "tool" ++ ":" ++ t, sameActionCount := 1,
                 step := s.step + 1 + 1 }
        ⟨"tool", t, args, "", none, [], ""⟩ n (.respErr msg) ans
        (by rw [hkey]) (show (1 : Nat) + 1 ≥ 2 by omega),
        hkey]
  simp only [runTrace, e1, e2, e3]

theorem strApp_ne_empty (p x : String) (h : p.data ≠ []) : "" ≠ p ++ x := by
  intro hc
  have h2 : ([] : List Char) = p.data ++ x.data := by
    have := congrArg String.data hc
    rwa [String.data_append] at this
  rcases List.append_eq_nil.1 h2.symm with ⟨h3, _⟩
  exact h h3

/-- C1: three consecutive identical tool calls with the same non-scroll
tool let the first two steps run, then abort the run with the
repeated-action condition on the third, before that third action is
dispatched (nothing is sent on the aborting step); and a run consisting
solely of scroll tool calls never ends in the repeated-action abort, for
any length, because each scroll key is made unique by the sampled clock
(consecutive samples render differently). -/
theorem C1_repeat_guard :
    (∀ (s : LoopState) (t : String) (args : Option (List (String × Json)))
        (msg ans : String) (n : Nat),
      t ≠ "scroll" → t ≠ "" → s.lastAction ≠ "tool" ++ ":" ++ t →
      runTrace s
        [⟨.ok ⟨"tool", t, args, "", none, [], ""⟩, n, .respErr msg, ans⟩,
         ⟨.ok ⟨"tool", t, args, "", none, [], ""⟩, n, .respErr msg, ans⟩,
         ⟨.ok ⟨"tool", t, args, "", none, [], ""⟩, n, .respErr msg, ans⟩] =
        [(.cont, ⟨[(t, args.getD [])], false, none, []⟩),
         (.cont, ⟨[(t, args.getD [])], false, none, []⟩),
         (.abortRepeat, ⟨[], false, none, []⟩)]) ∧
    (∀ (task ans : String) (L : List (AgentAction × Nat × WorkerResult)),
      (∀ x ∈ L, x.1.action = "tool" ∧ x.1.tool = "scroll") →
      List.Chain' (fun p q => Nat.repr p ≠ Nat.repr q) (L.map (fun x => x.2.1)) →
      ∀ r ∈ runResults (initState task)
          (L.map (fun x => ⟨.ok x.1, x.2.1, x.2.2, ans⟩)),
        r ≠ .abortRepeat) := by
  constructor
  · intro s t args msg ans n hts hte hla
    exact repeatThree_helper s t args msg ans n hts hte hla
  · intro task ans L hall hch
    refine scrollRun_aux ans L (initState task) hall hch ?_
    intro a n w rest _
    exact strApp_ne_empty "tool:scroll:" (Nat.repr n) (by decide)

/-- C1 witness: three identical clicks from a fresh state abort on the
third with nothing dispatched, and a three-scroll run with increasing
clock samples never hits the repeated-action abort. -/
theorem C1_repeat_guard_witness :
    runTrace (initState "x")
      [⟨.ok ⟨"tool", "click", some [], "", none, [], ""⟩, 0, .respErr "m", ""⟩,
       ⟨.ok ⟨"tool", "click", some [], "", none, [], ""⟩, 0, .respErr "m", ""⟩,
       ⟨.ok ⟨"tool", "click", some [], "", none, [], ""⟩, 0, .respErr "m", ""⟩] =
      [(.cont, ⟨[("click", [])], false, none, []⟩),
       (.cont, ⟨[("click", [])], false, none, []⟩),
       (.abortRepeat, ⟨[], false, none, []⟩)] ∧
    StepRes.abortRepeat ∉ runResults (initState "x")
      ([(scrollAction, 1, WorkerResult.respErr "m"),
        (scrollAction, 2, WorkerResult.respErr "m"),
        (scrollAction, 3, WorkerResult.respErr "m")].map
        (fun x => ⟨.ok x.1, x.2.1, x.2.2, ""⟩)) := by
  constructor
  · exact C1_repeat_guard.1 (initState "x") "click" (some []) "m" "" 0
      (by decide) (by decide) (by decide)
  · intro hmem
    exact C1_repeat_guard.2 "x" ""
      [(scrollAction, 1, WorkerResult.respErr "m"),
       (scrollAction, 2, WorkerResult.respErr "m"),
       (scrollAction, 3, WorkerResult.respErr "m")]
      (by decide)
      (List.Chain.cons (by decide) (List.Chain.cons (by decide) List.Chain.nil))
      _ hmem rfl
